import Mathlib

/-!
# Verification of the bulk-operation engine (accelerator-api-bulk-ts)

Shallow embedding of the bulk-operation execution engine:
`BatchProcessor` (`src/utils/batch.ts`), `BulkOperationsService.processBatch`
(`src/api/bulk.ts`), `InputValidator.validateBulkConfig` (`src/utils/validation.ts`)
and `BaseBulkOperation.bulkUpdate` / `performDryRun` (`src/operations/base.ts`).

Modelling conventions:
* A caller-supplied operation is a stateful function `σ → α → σ × Except String Unit`.
  The state `σ` models whatever the JS closure mutates (e.g. per-item invocation
  counters in the retry tests); the `String` of a failure is the already-stringified
  error text (`error instanceof Error ? error.message : String(error)`).
* `async`/`Promise` code is embedded sequentially: inside a batch the items settle
  in list order, batches of a concurrency window settle in window order.  This fixes
  one linearisation of the concurrent run; counts and partition facts are unaffected.
* Wall-clock readings are supplied from outside: `process` receives the elapsed time
  of that call from a `clock` oracle, so theorems quantifying over the oracle hold
  "regardless of actual elapsed time".  `setTimeout` delays are recorded in a list
  instead of being waited for.
* JS numbers produced by `0/0` are modelled by `Option Nat`, `none` standing for `NaN`;
  `Math.round` on a finite non-negative quotient is the exact rational half-up rounding.
* A non-positive `batchSize` or concurrency makes the JS `for` loops spin forever
  (the index never advances); configuration validation rejects those values.  The
  embedding returns no batches there, and every theorem touching that code carries
  the positivity hypotheses.
-/

namespace Bulk

/-- Result of one `BatchProcessor` pass (`BatchResult` in `src/types/bulk.ts`). -/
structure BatchResult (α : Type) where
  successful : List α
  failed : List (α × String)
  batchNumber : Nat
  duration : Nat
deriving DecidableEq

/-- A caller-supplied per-item operation: takes the closure state and an item,
returns the new state and either success or a captured failure text. -/
abbrev Op (σ α : Type) := σ → α → σ × Except String Unit

/-- `Math.ceil (n / b)` for natural `n` and positive `b`. -/
def ceilDiv (n b : Nat) : Nat := (n + b - 1) / b

/-- `BatchProcessor.createBatches`: `for (i = 0; i < items.length; i += batchSize)
batches.push(items.slice(i, i + batchSize))`.  A non-positive batch size never
terminates in the source and is rejected by validation; modelled as no batches. -/
def createBatches : Nat → List α → List (List α)
  | _, [] => []
  | 0, _ :: _ => []
  | b + 1, x :: xs => ((x :: xs).take (b + 1)) :: createBatches (b + 1) (xs.drop b)
termination_by b l => l.length
decreasing_by simp; omega

/-!
## `BatchProcessor.processBatch` / `process` / `processWithRetry`

`processBatch` (the private per-batch worker) tries the operation on every item of a
batch, pushing the item to `successful` or `(item, errorText)` to `failed`.
`process` chops the input with `createBatches` and walks the batches in windows of
`concurrency`, aggregating window results in order.  The sequential embedding settles
items in list order.
-/

/-- Per-batch worker (`BatchProcessor.processBatch` minus timing/logging):
each item runs under `try/catch`, appending to `successful` or `failed`. -/
def runItems (op : Op σ α) : σ → List α → List α → List (α × String) →
    σ × List α × List (α × String)
  | s, [], succ, fail => (s, succ, fail)
  | s, x :: xs, succ, fail =>
    match op s x with
    | (s', Except.ok _) => runItems op s' xs (succ ++ [x]) fail
    | (s', Except.error e) => runItems op s' xs succ (fail ++ [(x, e)])

/-- One concurrency window: the batches of the window are mapped and their results
aggregated in order (`concurrentBatches.map` + `Promise.all` + the aggregation loop). -/
def runBatchList (op : Op σ α) : σ → List (List α) → σ × List α × List (α × String)
  | s, [] => (s, [], [])
  | s, batch :: rest =>
    let r1 := runItems op s batch [] []
    let r2 := runBatchList op r1.1 rest
    (r2.1, r1.2.1 ++ r2.2.1, r1.2.2 ++ r2.2.2)

/-- The window loop of `BatchProcessor.process`:
`for (i = 0; i < batches.length; i += concurrency)` dispatches
`batches.slice(i, i + concurrency)` and aggregates the window's results.
Zero concurrency never advances the loop index in the source (validation rejects it);
modelled as processing nothing. -/
def runWindows (op : Op σ α) (conc : Nat) : σ → List (List α) →
    σ × List α × List (α × String)
  | s, [] => (s, [], [])
  | s, batch :: rest =>
    if conc = 0 then (s, [], [])
    else
      let r1 := runBatchList op s ((batch :: rest).take conc)
      let r2 := runWindows op conc r1.1 (rest.drop (conc - 1))
      (r2.1, r1.2.1 ++ r2.2.1, r1.2.2 ++ r2.2.2)
termination_by s l => l.length
decreasing_by simp; omega

/-- `BatchProcessor.process`: split into batches, run the windows, report the batch
count and the wall-clock `elapsed` reading of this call (supplied by the caller's
clock oracle, since the embedding has no real clock). -/
def process (b conc : Nat) (op : Op σ α) (elapsed : Nat) (s : σ) (items : List α) :
    σ × BatchResult α :=
  let batches := createBatches b items
  let r := runWindows op conc s batches
  (r.1, { successful := r.2.1, failed := r.2.2, batchNumber := batches.length,
          duration := elapsed })

/-- `allFailed[allFailed.length - 1]?.error || 'All items failed'`: the captured text
of the last recorded failure, except that JS `||` also replaces an *empty* string
by the fallback message. -/
def lastErrText (l : List (α × String)) : String :=
  match l.getLast? with
  | some p => if p.2 = "" then "All items failed" else p.2
  | none => "All items failed"

/-- The `while (attempt <= retries)` loop of `BatchProcessor.processWithRetry`,
with `fuel = retries - attempt`.  Each round runs `process` on the still-failing
items; successes accumulate in `allS`; the loop ends when a round has no failures
or the rounds are exhausted, and only the final round's failures are kept (earlier
ones were retried).  Requested back-off delays (`retryDelay * 2 ^ attempt`) are
recorded in `delays`; `clock` supplies the elapsed-time reading of each round.
The source's `try/catch` around the `process` call is unreachable — `process`
catches every per-item failure itself and never throws — so it has no counterpart
here. -/
def retryGo (b conc : Nat) (op : Op σ α) (d : Nat) (clock : Nat → Nat) :
    Nat → Nat → σ → List α → List α → List Nat →
    σ × List α × List (α × String) × List Nat
  | 0, attempt, s, remaining, allS, delays =>
    let r := process b conc op (clock attempt) s remaining
    (r.1, allS ++ r.2.successful, r.2.failed, delays)
  | fuel + 1, attempt, s, remaining, allS, delays =>
    let r := process b conc op (clock attempt) s remaining
    if r.2.failed.isEmpty then (r.1, allS ++ r.2.successful, r.2.failed, delays)
    else
      retryGo b conc op d clock fuel (attempt + 1) r.1 (r.2.failed.map Prod.fst)
        (allS ++ r.2.successful) (delays ++ [d * 2 ^ attempt])

/-- `BatchProcessor.processWithRetry`: run the retry rounds; if no item ever
succeeded and every input item is still failing (non-empty input), throw the last
captured failure text (`Except.error`); otherwise return the `BatchResult` with
`batchNumber = ceil(items.length / batchSize)` and a literal `duration: 0`.
The third component is the list of requested back-off delays. -/
def processWithRetry (b conc : Nat) (op : Op σ α) (retries d : Nat)
    (clock : Nat → Nat) (s : σ) (items : List α) :
    σ × Except String (BatchResult α) × List Nat :=
  let r := retryGo b conc op d clock retries 0 s items [] []
  if r.2.1.isEmpty && r.2.2.1.length == items.length && !items.isEmpty then
    (r.1, Except.error (lastErrText r.2.2.1), r.2.2.2)
  else
    (r.1, Except.ok { successful := r.2.1, failed := r.2.2.1,
                      batchNumber := ceilDiv items.length b, duration := 0 },
     r.2.2.2)

/-- An operation that fails on every invocation (any state, any item). -/
def alwaysFails (op : Op σ α) : Prop :=
  ∀ (s : σ) (x : α) (u : Unit), (op s x).2 ≠ Except.ok u

/-- A stateful test operation for the retry scenarios: the state counts, per item
value, how many times the operation has been invoked on that item; an invocation
fails (with `msg x`) while the prior-invocation count is below `failures x`,
and succeeds afterwards. -/
def countingOp [DecidableEq α] (failures : α → Nat) (msg : α → String) :
    Op (α → Nat) α :=
  fun s x =>
    (fun y => if y = x then s y + 1 else s y,
     if s x < failures x then Except.error (msg x) else Except.ok ())

/-!
## Service layer: configuration, validation, progress, results
-/

/-- `BulkOperationConfig` (`src/types/bulk.ts`) after `processBatch` merges the
defaults, so every field is present.  JS numbers may be negative: `Int`. -/
structure BulkOperationConfig where
  batchSize : Int
  concurrentBatches : Int
  retryAttempts : Int
  retryDelay : Int
  continueOnError : Bool
  dryRun : Bool
deriving DecidableEq

/-- `ValidationResult` (`src/types/bulk.ts`). -/
structure ValidationResult where
  isValid : Bool
  errors : List String
  warnings : List String
deriving DecidableEq

/-- `InputValidator.validateBulkConfig` on a fully-merged configuration (every
field defined, so every check runs): each field yields an error, or a warning,
or nothing; `isValid` iff no errors. -/
def validateBulkConfig (c : BulkOperationConfig) : ValidationResult :=
  let bs :=
    if c.batchSize ≤ 0 then (["Batch size must be greater than 0"], ([] : List String))
    else if c.batchSize > 1000 then ([], ["Large batch size may cause performance issues"])
    else ([], [])
  let cb :=
    if c.concurrentBatches ≤ 0 then
      (["Concurrent batches must be greater than 0"], ([] : List String))
    else if c.concurrentBatches > 10 then ([], ["High concurrency may overwhelm the API"])
    else ([], [])
  let ra :=
    if c.retryAttempts < 0 then (["Retry attempts cannot be negative"], ([] : List String))
    else if c.retryAttempts > 10 then ([], ["High retry attempts may cause long delays"])
    else ([], [])
  let rd :=
    if c.retryDelay < 0 then (["Retry delay cannot be negative"], ([] : List String))
    else if c.retryDelay > 30000 then ([], ["Long retry delay may cause timeouts"])
    else ([], [])
  { isValid := (bs.1 ++ cb.1 ++ ra.1 ++ rd.1).isEmpty,
    errors := bs.1 ++ cb.1 ++ ra.1 ++ rd.1,
    warnings := bs.2 ++ cb.2 ++ ra.2 ++ rd.2 }

/-- `BulkProgress` (`src/types/bulk.ts`).  `percentage` and `successRate` are JS
numbers that can be `NaN` (from `0/0`): modelled as `Option Nat` with `none` = NaN.
`startTime` and `estimatedTimeRemaining` are wall-clock readings outside the model. -/
structure BulkProgress where
  total : Nat
  completed : Nat
  failed : Nat
  percentage : Option Nat
  currentBatch : Nat
  totalBatches : Nat
  successRate : Option Nat
deriving DecidableEq

/-- `Math.round((completed / total) * 100)`: `NaN` (`none`) when `total = 0` (JS
`0/0`; `completed ≤ total` in every reachable state), otherwise the exact half-up
rounding of the rational `completed * 100 / total`. -/
def roundPct (completed total : Nat) : Option Nat :=
  if total = 0 then none else some ((200 * completed + total) / (2 * total))

/-- `progress.successRate = progress.total > 0 ? Math.round((completed / total) * 100) : 0`. -/
def successRateVal (completed total : Nat) : Option Nat :=
  if 0 < total then roundPct completed total else some 0

/-!
## Dry-run previewer (`BaseBulkOperation.performDryRun` and helpers)
-/

/-- A resource is a duck-typed JS object; the dry-run logic only reads, compares
and copies its fields, so it is modelled as an association list from field name
to (opaque, string-valued) field value. -/
abbrev Resource := List (String × String)

/-- Field read (`resourceAny[field]`): `none` models JS `undefined`. -/
def getField (r : Resource) (k : String) : Option String :=
  (r.find? (fun p => p.1 == k)).map Prod.snd

/-- JS truthiness of a field read: `undefined` and the empty string are falsy. -/
def truthyField (r : Resource) (k : String) : Bool :=
  match getField r k with
  | some s => !(s == "")
  | none => false

/-- `getResourceId`: `resourceAny.id || resourceAny._id || resourceAny.uuid`.
When even `uuid` is absent the JS value is `undefined`; modelled as the literal
text "undefined" (no claim depends on that corner). -/
def getResourceId (r : Resource) : String :=
  if truthyField r "id" then (getField r "id").getD ""
  else if truthyField r "_id" then (getField r "_id").getD ""
  else (getField r "uuid").getD "undefined"

/-- `extractRelevantFields`: keep, in `fields` order, exactly the update keys the
resource has (`hasOwnProperty`), with the resource's current values. -/
def extractRelevantFields (r : Resource) (fields : List String) :
    List (String × String) :=
  fields.filterMap (fun f => (getField r f).map (fun v => (f, v)))

/-- The quote character of the warning text `${key} is already set to '${value}'`. -/
def sq : String := String.singleton (Char.ofNat 39)

/-- `validateResourceUpdate` (default implementation): one warning per update entry
whose proposed value the resource already has (`resourceAny[key] === value`). -/
def resourceUpdateWarnings (r : Resource) (updates : List (String × String)) :
    List String :=
  updates.filterMap (fun kv =>
    if getField r kv.1 == some kv.2 then
      some (kv.1 ++ " is already set to " ++ sq ++ kv.2 ++ sq)
    else none)

/-- One element of `DryRunResult.preview`. -/
structure PreviewEntry where
  id : String
  currentValues : List (String × String)
  proposedChanges : List (String × String)
  warnings : Option (List String)
deriving DecidableEq

/-- `DryRunResult` (`src/types/bulk.ts`). -/
structure DryRunResult where
  affectedCount : Nat
  preview : List PreviewEntry
  warnings : List String
  estimatedDuration : Nat
deriving DecidableEq

/-- `BaseBulkOperation.performDryRun`: one preview entry per resource (with its
per-item warnings when non-empty), all item warnings collected in order,
`affectedCount = resources.length`, `estimatedDuration = ceil(n / 50) * 1000`. -/
def performDryRun (resources : List Resource) (updates : List (String × String)) :
    DryRunResult :=
  { affectedCount := resources.length,
    preview := resources.map (fun r =>
      let iw := resourceUpdateWarnings r updates
      { id := getResourceId r,
        currentValues := extractRelevantFields r (updates.map Prod.fst),
        proposedChanges := updates,
        warnings := if iw.length > 0 then some iw else none }),
    warnings := (resources.map (fun r => resourceUpdateWarnings r updates)).flatten,
    estimatedDuration := ceilDiv resources.length 50 * 1000 }

/-- `BulkResult` (`src/types/bulk.ts`).  Error entries keep `{item, error}`; the
per-entry `timestamp` is a wall-clock reading outside the model.  `rollbackData`
is only ever the dry-run preview. -/
structure BulkResult (α : Type) where
  operationId : String
  total : Nat
  successful : Nat
  failed : Nat
  errors : List (α × String)
  duration : Nat
  rollbackData : Option (List PreviewEntry)
deriving DecidableEq

/-!
## `BulkOperationsService.processBatch` and `BaseBulkOperation.bulkUpdate`
-/

/-- The try-block dispatch of `BulkOperationsService.processBatch`: the retry path
when `retryAttempts > 0`, a single plain `process` pass otherwise.  The third
component is the list of requested back-off delays (empty on the plain path). -/
def runStage (cfg : BulkOperationConfig) (op : Op σ α) (clock : Nat → Nat) (s : σ)
    (items : List α) : σ × Except String (BatchResult α) × List Nat :=
  if cfg.retryAttempts > 0 then
    processWithRetry cfg.batchSize.toNat cfg.concurrentBatches.toNat op
      cfg.retryAttempts.toNat cfg.retryDelay.toNat clock s items
  else
    let r := process cfg.batchSize.toNat cfg.concurrentBatches.toNat op (clock 0) s items
    (r.1, Except.ok r.2, [])

/-- `BulkOperationsService.processBatch`.  `opId` stands for the fresh `uuidv4()`
token; `elapsedTotal` is the wall-clock duration of the whole call (from the
clock oracle).  Returns the final `BulkProgress` (the tracker's state at return
time) next to the `BulkResult`, or the thrown error text. -/
def processBatchSvc (opId : String) (cfg : BulkOperationConfig) (op : Op σ α)
    (clock : Nat → Nat) (elapsedTotal : Nat) (s : σ) (items : List α) :
    σ × Except String (BulkProgress × BulkResult α) :=
  let v := validateBulkConfig cfg
  if !v.isValid then
    (s, Except.error ("Invalid configuration: " ++ String.intercalate ", " v.errors))
  else
    let progress0 : BulkProgress :=
      { total := items.length, completed := 0, failed := 0, percentage := some 0,
        currentBatch := 0,
        totalBatches := ceilDiv items.length cfg.batchSize.toNat,
        successRate := some 0 }
    match runStage cfg op clock s items with
    | (s', Except.ok br, _) =>
      if !cfg.continueOnError && br.failed.length > 0 then
        (s', Except.error
          ("Bulk operation failed: " ++ toString br.failed.length ++ " items failed"))
      else
        (s', Except.ok
          ({ progress0 with
             completed := br.successful.length,
             failed := br.failed.length,
             percentage := roundPct br.successful.length items.length,
             successRate := successRateVal br.successful.length items.length },
           { operationId := opId, total := items.length,
             successful := br.successful.length, failed := br.failed.length,
             errors := br.failed, duration := elapsedTotal, rollbackData := none }))
    | (s', Except.error e, _) =>
      if cfg.continueOnError then
        (s', Except.ok
          ({ progress0 with
             completed := 0, failed := items.length,
             percentage := some 100, successRate := some 0 },
           { operationId := opId, total := items.length, successful := 0,
             failed := items.length, errors := items.map (fun it => (it, e)),
             duration := elapsedTotal, rollbackData := none }))
      else (s', Except.error e)

/-- The canonical no-op result an empty resource set produces. -/
def noopResult : BulkResult Resource :=
  { operationId := "no-op", total := 0, successful := 0, failed := 0, errors := [],
    duration := 0, rollbackData := none }

/-- `BaseBulkOperation.bulkUpdate`.  `filterV` and `updatesV` are the subclass
validations of the filter and the update payload; `resources` is what
`getResources(filter)` fetched; `op` is the `updateResource` closure (its
side effects live in the state `σ`). -/
def bulkUpdate (filterV updatesV : ValidationResult) (resources : List Resource)
    (updates : List (String × String)) (cfg : BulkOperationConfig) (opId : String)
    (op : Op σ Resource) (clock : Nat → Nat) (elapsedTotal : Nat) (s : σ) :
    σ × Except String (BulkResult Resource) :=
  if !filterV.isValid then
    (s, Except.error ("Invalid filter: " ++ String.intercalate ", " filterV.errors))
  else if !updatesV.isValid then
    (s, Except.error ("Invalid updates: " ++ String.intercalate ", " updatesV.errors))
  else if resources.length = 0 then (s, Except.ok noopResult)
  else if cfg.dryRun then
    let d := performDryRun resources updates
    (s, Except.ok
      { operationId := "dry-run", total := d.affectedCount,
        successful := d.affectedCount, failed := 0, errors := [], duration := 0,
        rollbackData := some d.preview })
  else
    match processBatchSvc opId cfg op clock elapsedTotal s resources with
    | (s', Except.ok pr) => (s', Except.ok pr.2)
    | (s', Except.error e) => (s', Except.error e)

/-!
## Theorems
-/

theorem createBatches_nil (b : Nat) : createBatches b ([] : List α) = [] := by
  cases b <;> simp [createBatches]

theorem createBatches_cons (b : Nat) (x : α) (xs : List α) :
    createBatches (b + 1) (x :: xs) =
      (x :: xs).take (b + 1) :: createBatches (b + 1) (xs.drop b) := by
  simp [createBatches]

theorem createBatches_eq_nil_iff (b : Nat) (l : List α) :
    createBatches (b + 1) l = [] ↔ l = [] := by
  cases l with
  | nil => simp [createBatches_nil]
  | cons x xs => simp [createBatches_cons]

/-- Concatenating the batches in order restores the input (positive batch size). -/
theorem createBatches_join {b : Nat} (hb : 0 < b) (items : List α) :
    (createBatches b items).flatten = items := by
  obtain ⟨c, rfl⟩ : ∃ c, b = c + 1 := ⟨b - 1, by omega⟩
  suffices h : ∀ (n : Nat) (l : List α), l.length ≤ n → (createBatches (c + 1) l).flatten = l by
    exact h items.length items le_rfl
  intro n
  induction n with
  | zero =>
    intro l hl
    have : l = [] := List.length_eq_zero.mp (Nat.le_zero.mp hl)
    simp [this, createBatches_nil]
  | succ n ih =>
    intro l hl
    cases l with
    | nil => simp [createBatches_nil]
    | cons x xs =>
      rw [createBatches_cons]
      have hdrop : (xs.drop c).length ≤ n := by
        simp only [List.length_cons] at hl
        simp only [List.length_drop]
        omega
      simp only [List.flatten_cons, ih (xs.drop c) hdrop, List.take_succ_cons]
      simp [List.take_append_drop]

/-- The number of batches is `⌈n / b⌉` (positive batch size). -/
theorem createBatches_length {b : Nat} (hb : 0 < b) (items : List α) :
    (createBatches b items).length = ceilDiv items.length b := by
  obtain ⟨c, rfl⟩ : ∃ c, b = c + 1 := ⟨b - 1, by omega⟩
  suffices h : ∀ (n : Nat) (l : List α), l.length ≤ n →
      (createBatches (c + 1) l).length = ceilDiv l.length (c + 1) by
    exact h items.length items le_rfl
  intro n
  induction n with
  | zero =>
    intro l hl
    have : l = [] := List.length_eq_zero.mp (Nat.le_zero.mp hl)
    subst this
    simp only [createBatches_nil, List.length_nil, ceilDiv]
    exact (Nat.div_eq_of_lt (by omega)).symm
  | succ n ih =>
    intro l hl
    cases l with
    | nil =>
      simp only [createBatches_nil, List.length_nil, ceilDiv]
      exact (Nat.div_eq_of_lt (by omega)).symm
    | cons x xs =>
      rw [createBatches_cons]
      have hdrop : (xs.drop c).length ≤ n := by
        simp only [List.length_cons] at hl
        simp only [List.length_drop]
        omega
      simp only [List.length_cons, ih (xs.drop c) hdrop, List.length_drop, ceilDiv]
      have h1 : xs.length + 1 + (c + 1) - 1 = xs.length + (c + 1) := by omega
      rw [h1, Nat.add_div_right _ (by omega : 0 < c + 1)]
      rcases le_or_lt xs.length c with hle | hlt
      · have h2 : xs.length - c = 0 := by omega
        rw [h2]
        have e1 : 0 + (c + 1) - 1 = c := by omega
        rw [e1, Nat.div_eq_of_lt (by omega : c < c + 1),
          Nat.div_eq_of_lt (by omega : xs.length < c + 1)]
      · have h2 : xs.length - c + (c + 1) - 1 = xs.length := by omega
        rw [h2, Nat.add_comm]

/-- Every batch is non-empty and no larger than the batch size. -/
theorem createBatches_sizes {b : Nat} (hb : 0 < b) (items : List α) :
    ∀ l ∈ createBatches b items, l ≠ [] ∧ l.length ≤ b := by
  obtain ⟨c, rfl⟩ : ∃ c, b = c + 1 := ⟨b - 1, by omega⟩
  suffices h : ∀ (n : Nat) (l : List α), l.length ≤ n →
      ∀ t ∈ createBatches (c + 1) l, t ≠ [] ∧ t.length ≤ c + 1 by
    exact h items.length items le_rfl
  intro n
  induction n with
  | zero =>
    intro l hl
    have : l = [] := List.length_eq_zero.mp (Nat.le_zero.mp hl)
    simp [this, createBatches_nil]
  | succ n ih =>
    intro l hl t ht
    cases l with
    | nil => simp [createBatches_nil] at ht
    | cons x xs =>
      rw [createBatches_cons] at ht
      rcases List.mem_cons.mp ht with h | h
      · subst h
        constructor
        · simp [List.take_succ_cons]
        · simpa using List.length_take_le (c + 1) (x :: xs)
      · have hdrop : (xs.drop c).length ≤ n := by
          simp only [List.length_cons] at hl
          simp only [List.length_drop]
          omega
        exact ih (xs.drop c) hdrop t h

/-- Every batch except possibly the last has exactly `b` items (positive batch size). -/
theorem createBatches_dropLast_sizes {b : Nat} (hb : 0 < b) (items : List α) :
    ∀ l ∈ (createBatches b items).dropLast, l.length = b := by
  obtain ⟨c, rfl⟩ : ∃ c, b = c + 1 := ⟨b - 1, by omega⟩
  suffices h : ∀ (n : Nat) (l : List α), l.length ≤ n →
      ∀ t ∈ (createBatches (c + 1) l).dropLast, t.length = c + 1 by
    exact h items.length items le_rfl
  intro n
  induction n with
  | zero =>
    intro l hl
    have : l = [] := List.length_eq_zero.mp (Nat.le_zero.mp hl)
    simp [this, createBatches_nil]
  | succ n ih =>
    intro l hl t ht
    cases l with
    | nil => simp [createBatches_nil] at ht
    | cons x xs =>
      rw [createBatches_cons] at ht
      by_cases hrest : xs.drop c = []
      · rw [hrest, createBatches_nil] at ht
        simp at ht
      · have hne : createBatches (c + 1) (xs.drop c) ≠ [] := by
          simpa [createBatches_eq_nil_iff] using hrest
        rw [List.dropLast_cons_of_ne_nil hne] at ht
        rcases List.mem_cons.mp ht with h | h
        · subst h
          have hpos := List.length_pos.mpr hrest
          simp only [List.length_drop] at hpos
          simp only [List.length_take, List.length_cons]
          omega
        · have hdrop : (xs.drop c).length ≤ n := by
            simp only [List.length_cons] at hl
            simp only [List.length_drop]
            omega
          exact ih (xs.drop c) hdrop t h

/-!
### Structural lemmas: the sequential run of the window machinery over the batches
equals one pass of `runItems` over the whole input.
-/

theorem runItems_cons_ok {op : Op σ α} {s s' : σ} {x : α} {u : Unit}
    (hop : op s x = (s', Except.ok u)) (xs : List α) (succ : List α)
    (fail : List (α × String)) :
    runItems op s (x :: xs) succ fail = runItems op s' xs (succ ++ [x]) fail := by
  simp [runItems, hop]

theorem runItems_cons_error {op : Op σ α} {s s' : σ} {x : α} {e : String}
    (hop : op s x = (s', Except.error e)) (xs : List α) (succ : List α)
    (fail : List (α × String)) :
    runItems op s (x :: xs) succ fail = runItems op s' xs succ (fail ++ [(x, e)]) := by
  simp [runItems, hop]

theorem runItems_acc (op : Op σ α) (l : List α) :
    ∀ (s : σ) (succ : List α) (fail : List (α × String)),
      runItems op s l succ fail =
        ((runItems op s l [] []).1,
         succ ++ (runItems op s l [] []).2.1,
         fail ++ (runItems op s l [] []).2.2) := by
  induction l with
  | nil => intro s succ fail; simp [runItems]
  | cons x xs ih =>
    intro s succ fail
    cases hop : op s x with
    | mk s' r =>
      cases r with
      | ok u =>
        rw [runItems_cons_ok hop, runItems_cons_ok hop,
          ih s' (succ ++ [x]) fail, ih s' ([] ++ [x]) []]
        simp
      | error e =>
        rw [runItems_cons_error hop, runItems_cons_error hop,
          ih s' succ (fail ++ [(x, e)]), ih s' [] ([] ++ [(x, e)])]
        simp

theorem runItems_append (op : Op σ α) (l1 l2 : List α) (s : σ) :
    runItems op s (l1 ++ l2) [] [] =
      ((runItems op (runItems op s l1 [] []).1 l2 [] []).1,
       (runItems op s l1 [] []).2.1 ++
         (runItems op (runItems op s l1 [] []).1 l2 [] []).2.1,
       (runItems op s l1 [] []).2.2 ++
         (runItems op (runItems op s l1 [] []).1 l2 [] []).2.2) := by
  induction l1 generalizing s with
  | nil => simp [runItems]
  | cons x xs ih =>
    rw [List.cons_append]
    cases hop : op s x with
    | mk s' r =>
      cases r with
      | ok u =>
        rw [runItems_cons_ok hop, runItems_cons_ok hop,
          runItems_acc op (xs ++ l2) s' ([] ++ [x]) [], ih s',
          runItems_acc op xs s' ([] ++ [x]) []]
        simp
      | error e =>
        rw [runItems_cons_error hop, runItems_cons_error hop,
          runItems_acc op (xs ++ l2) s' [] ([] ++ [(x, e)]), ih s',
          runItems_acc op xs s' [] ([] ++ [(x, e)])]
        simp

theorem runBatchList_eq_runItems_flatten (op : Op σ α) (bs : List (List α)) (s : σ) :
    runBatchList op s bs = runItems op s bs.flatten [] [] := by
  induction bs generalizing s with
  | nil => simp [runBatchList, runItems]
  | cons batch rest ih =>
    simp only [runBatchList, List.flatten_cons, runItems_append op batch rest.flatten s]
    rw [ih]

theorem runWindows_eq_runItems_flatten (op : Op σ α) {conc : Nat} (hc : 0 < conc)
    (bs : List (List α)) (s : σ) :
    runWindows op conc s bs = runItems op s bs.flatten [] [] := by
  suffices h : ∀ (n : Nat) (l : List (List α)), l.length ≤ n → ∀ (s : σ),
      runWindows op conc s l = runItems op s l.flatten [] [] by
    exact h bs.length bs le_rfl s
  intro n
  induction n with
  | zero =>
    intro l hl s
    have : l = [] := List.length_eq_zero.mp (Nat.le_zero.mp hl)
    simp [this, runWindows, runItems]
  | succ n ih =>
    intro l hl s
    cases l with
    | nil => simp [runWindows, runItems]
    | cons batch rest =>
      rw [runWindows]
      rw [if_neg (by omega : ¬conc = 0)]
      dsimp only
      have hdrop : (rest.drop (conc - 1)).length ≤ n := by
        simp only [List.length_cons] at hl
        simp only [List.length_drop]
        omega
      rw [ih (rest.drop (conc - 1)) hdrop]
      rw [runBatchList_eq_runItems_flatten]
      have hsplit : (batch :: rest).flatten =
          ((batch :: rest).take conc).flatten ++ (rest.drop (conc - 1)).flatten := by
        conv_lhs => rw [← List.take_append_drop conc (batch :: rest)]
        rw [List.flatten_append]
        obtain ⟨c, rfl⟩ : ∃ c, conc = c + 1 := ⟨conc - 1, by omega⟩
        simp
      rw [hsplit, runItems_append]

/-- With a positive batch size and concurrency, `process` is one sequential pass of
`runItems` over the whole input, with `batchNumber` the number of batches. -/
theorem process_eq_runItems {b conc : Nat} (hb : 0 < b) (hc : 0 < conc)
    (op : Op σ α) (elapsed : Nat) (s : σ) (items : List α) :
    process b conc op elapsed s items =
      ((runItems op s items [] []).1,
       { successful := (runItems op s items [] []).2.1,
         failed := (runItems op s items [] []).2.2,
         batchNumber := (createBatches b items).length,
         duration := elapsed }) := by
  unfold process
  dsimp only
  rw [runWindows_eq_runItems_flatten op hc, createBatches_join hb]

/-!
### Per-pass and per-run invariants
-/

/-- One pass settles every item exactly once: `successful` and `failed` together
have as many entries as the batch. -/
theorem runItems_partition (op : Op σ α) (l : List α) :
    ∀ (s : σ) (succ : List α) (fail : List (α × String)),
      (runItems op s l succ fail).2.1.length + (runItems op s l succ fail).2.2.length =
        succ.length + fail.length + l.length := by
  induction l with
  | nil => intro s succ fail; simp [runItems]
  | cons x xs ih =>
    intro s succ fail
    cases hx : op s x with
    | mk s' r =>
      cases r with
      | ok u =>
        rw [runItems_cons_ok hx, ih s' (succ ++ [x]) fail]
        simp only [List.length_append, List.length_cons, List.length_nil]
        omega
      | error e =>
        rw [runItems_cons_error hx, ih s' succ (fail ++ [(x, e)])]
        simp only [List.length_append, List.length_cons, List.length_nil]
        omega

/-- Across all retry rounds, accumulated successes plus the final round's failures
account for every input item exactly once. -/
theorem retryGo_partition {b conc : Nat} (hb : 0 < b) (hc : 0 < conc) (op : Op σ α)
    (d : Nat) (clock : Nat → Nat) :
    ∀ (fuel attempt : Nat) (s : σ) (remaining allS : List α) (delays : List Nat),
      (retryGo b conc op d clock fuel attempt s remaining allS delays).2.1.length +
        (retryGo b conc op d clock fuel attempt s remaining allS delays).2.2.1.length =
        allS.length + remaining.length := by
  intro fuel
  induction fuel with
  | zero =>
    intro attempt s remaining allS delays
    simp only [retryGo]
    rw [process_eq_runItems hb hc]
    have := runItems_partition op remaining s [] []
    simp only [List.length_nil] at this
    simp only [List.length_append]
    omega
  | succ fuel ih =>
    intro attempt s remaining allS delays
    simp only [retryGo]
    rw [process_eq_runItems hb hc]
    have hpart := runItems_partition op remaining s [] []
    simp only [List.length_nil] at hpart
    by_cases hE : (runItems op s remaining [] []).2.2.isEmpty
    · rw [if_pos hE]
      have : (runItems op s remaining [] []).2.2 = [] := by
        simpa [List.isEmpty_iff] using hE
      simp only [List.length_append, this, List.length_nil] at hpart ⊢
      omega
    · rw [if_neg hE]
      have := ih (attempt + 1) (runItems op s remaining [] []).1
        ((runItems op s remaining [] []).2.2.map Prod.fst)
        (allS ++ (runItems op s remaining [] []).2.1)
        (delays ++ [d * 2 ^ attempt])
      simp only [List.length_append, List.length_map] at this ⊢
      omega

/-- The recorded back-off schedule is always an initial run of
`retryDelay * 2 ^ k`, `k = 0, 1, 2, …` (one entry per retry round entered). -/
theorem retryGo_delays (b conc : Nat) (op : Op σ α) (d : Nat) (clock : Nat → Nat) :
    ∀ (fuel attempt : Nat) (s : σ) (remaining allS : List α),
      ∃ m, attempt ≤ m ∧
        (retryGo b conc op d clock fuel attempt s remaining allS
            ((List.range attempt).map (fun k => d * 2 ^ k))).2.2.2 =
          (List.range m).map (fun k => d * 2 ^ k) := by
  intro fuel
  induction fuel with
  | zero =>
    intro attempt s remaining allS
    exact ⟨attempt, le_rfl, by simp [retryGo]⟩
  | succ fuel ih =>
    intro attempt s remaining allS
    simp only [retryGo]
    by_cases hE : (process b conc op (clock attempt) s remaining).2.failed.isEmpty
    · exact ⟨attempt, le_rfl, by rw [if_pos hE]⟩
    · rw [if_neg hE]
      have hrange : (List.range attempt).map (fun k => d * 2 ^ k) ++ [d * 2 ^ attempt] =
          (List.range (attempt + 1)).map (fun k => d * 2 ^ k) := by
        rw [List.range_succ, List.map_append]
        simp
      rw [hrange]
      obtain ⟨m, hm, heq⟩ := ih (attempt + 1)
        (process b conc op (clock attempt) s remaining).1
        ((process b conc op (clock attempt) s remaining).2.failed.map Prod.fst)
        (allS ++ (process b conc op (clock attempt) s remaining).2.successful)
      exact ⟨m, by omega, heq⟩

theorem runItems_alwaysFails {op : Op σ α} (hop : alwaysFails op) (l : List α) :
    ∀ s : σ, (runItems op s l [] []).2.1 = [] ∧
      ((runItems op s l [] []).2.2).map Prod.fst = l := by
  induction l with
  | nil => intro s; simp [runItems]
  | cons x xs ih =>
    intro s
    cases hx : op s x with
    | mk s' r =>
      cases r with
      | ok u =>
        exact absurd (show (op s x).2 = Except.ok u by rw [hx]) (hop s x u)
      | error e =>
        rw [runItems_cons_error hx, runItems_acc op xs s' [] ([] ++ [(x, e)])]
        simp [ih s']

/-- Under a total failure, no round contributes successes: the accumulated
`allSuccessful` never grows, and the final round's failures list the whole
still-failing set in order. -/
theorem retryGo_alwaysFails {b conc : Nat} (hb : 0 < b) (hc : 0 < conc) {op : Op σ α}
    (hop : alwaysFails op) (d : Nat) (clock : Nat → Nat) :
    ∀ (fuel attempt : Nat) (s : σ) (remaining allS : List α) (delays : List Nat),
      (retryGo b conc op d clock fuel attempt s remaining allS delays).2.1 = allS ∧
      ((retryGo b conc op d clock fuel attempt s remaining allS delays).2.2.1).map
          Prod.fst = remaining := by
  intro fuel
  induction fuel with
  | zero =>
    intro attempt s remaining allS delays
    obtain ⟨h1, h2⟩ := runItems_alwaysFails hop remaining s
    simp only [retryGo]
    rw [process_eq_runItems hb hc]
    dsimp only
    exact ⟨by rw [h1, List.append_nil], h2⟩
  | succ fuel ih =>
    intro attempt s remaining allS delays
    obtain ⟨h1, h2⟩ := runItems_alwaysFails hop remaining s
    simp only [retryGo]
    rw [process_eq_runItems hb hc]
    dsimp only
    by_cases hE : (runItems op s remaining [] []).2.2.isEmpty = true
    · rw [if_pos hE]
      exact ⟨by rw [h1, List.append_nil], h2⟩
    · rw [if_neg hE, h1, List.append_nil]
      obtain ⟨hr1, hr2⟩ := ih (attempt + 1) (runItems op s remaining [] []).1
        ((runItems op s remaining [] []).2.2.map Prod.fst) allS
        (delays ++ [d * 2 ^ attempt])
      exact ⟨hr1, by rw [hr2, h2]⟩

/-!
## Configuration validity and the dispatch stage
-/

/-- A configuration that passes `validateBulkConfig` has a positive batch size and
concurrency and non-negative retry parameters. -/
theorem validateBulkConfig_isValid {cfg : BulkOperationConfig}
    (h : (validateBulkConfig cfg).isValid = true) :
    0 < cfg.batchSize ∧ 0 < cfg.concurrentBatches ∧
      0 ≤ cfg.retryAttempts ∧ 0 ≤ cfg.retryDelay := by
  unfold validateBulkConfig at h
  dsimp only at h
  split_ifs at h <;> simp_all <;> omega

/-- Whenever the dispatch stage returns an outcome, its `successful` and `failed`
lists together settle every input item exactly once. -/
theorem runStage_partition {cfg : BulkOperationConfig} (hb : 0 < cfg.batchSize)
    (hc : 0 < cfg.concurrentBatches) {op : Op σ α} {clock : Nat → Nat} {s : σ}
    {items : List α} {s' : σ} {br : BatchResult α} {ds : List Nat}
    (h : runStage cfg op clock s items = (s', Except.ok br, ds)) :
    br.successful.length + br.failed.length = items.length := by
  have hbN : 0 < cfg.batchSize.toNat := by omega
  have hcN : 0 < cfg.concurrentBatches.toNat := by omega
  unfold runStage at h
  by_cases hra : cfg.retryAttempts > 0
  · rw [if_pos hra] at h
    unfold processWithRetry at h
    dsimp only at h
    split at h
    · simp only [Prod.mk.injEq] at h
      exact absurd h.2.1 (by simp)
    · simp only [Prod.mk.injEq, Except.ok.injEq] at h
      obtain ⟨-, hbr, -⟩ := h
      have hpart := retryGo_partition hbN hcN op cfg.retryDelay.toNat clock
        cfg.retryAttempts.toNat 0 s items [] []
      rw [← hbr]
      simpa using hpart
  · rw [if_neg hra] at h
    dsimp only at h
    rw [process_eq_runItems hbN hcN] at h
    simp only [Prod.mk.injEq, Except.ok.injEq] at h
    obtain ⟨-, hbr, -⟩ := h
    have hpart := runItems_partition op items s [] []
    rw [← hbr]
    simpa using hpart

/-!
## Claims
-/

/-- **C1.** For every completed run of `processBatch` (the service entry point) with
a valid configuration, the returned `BulkResult` satisfies
`successful + failed = total` and `total = items.length`: on the normal path the
counts come from the retry executor's final `successful`/`failed` lists, which
partition the input; on the `continueOnError = true` catch path `successful = 0`
and `failed = total`. -/
theorem processBatchSvc_partition (opId : String) (cfg : BulkOperationConfig)
    (op : Op σ α) (clock : Nat → Nat) (elapsedTotal : Nat) (s : σ) (items : List α)
    (s' : σ) (p : BulkProgress) (r : BulkResult α)
    (hv : (validateBulkConfig cfg).isValid = true)
    (h : processBatchSvc opId cfg op clock elapsedTotal s items =
      (s', Except.ok (p, r))) :
    r.successful + r.failed = r.total ∧ r.total = items.length := by
  obtain ⟨hb, hc, -, -⟩ := validateBulkConfig_isValid hv
  unfold processBatchSvc at h
  dsimp only at h
  rw [hv] at h
  simp only [Bool.not_true] at h
  rw [if_neg (by simp)] at h
  rcases hrs : runStage cfg op clock s items with ⟨s1, res, ds⟩
  rw [hrs] at h
  cases res with
  | ok br =>
    dsimp only at h
    split at h
    · simp at h
    · obtain ⟨h1, h2⟩ := Prod.mk.inj h
      obtain ⟨h4, h5⟩ := Prod.mk.inj (Except.ok.inj h2)
      subst h5
      exact ⟨runStage_partition hb hc hrs, rfl⟩
  | error e =>
    dsimp only at h
    split at h
    · obtain ⟨h1, h2⟩ := Prod.mk.inj h
      obtain ⟨h4, h5⟩ := Prod.mk.inj (Except.ok.inj h2)
      subst h5
      refine ⟨?_, rfl⟩
      dsimp only
      omega
    · simp at h

/-- Witness for C1 at a concrete partial-failure run: 5 items, the even ones fail,
`retryAttempts = 0`, `continueOnError = true`. -/
theorem processBatchSvc_partition_witness :
    (3 : Nat) + 2 = 5 ∧ (5 : Nat) = [1, 2, 3, 4, 5].length := by
  have h := processBatchSvc_partition (σ := Unit) "w" ⟨2, 1, 0, 0, true, false⟩
    (fun s n => (s, if n % 2 == 1 then Except.ok () else Except.error "even"))
    (fun _ => 0) 4 () [1, 2, 3, 4, 5] ()
    { total := 5, completed := 3, failed := 2, percentage := some 60,
      currentBatch := 0, totalBatches := 3, successRate := some 60 }
    { operationId := "w", total := 5, successful := 3, failed := 2,
      errors := [(2, "even"), (4, "even")], duration := 4, rollbackData := none }
    (by decide)
    (by simp [processBatchSvc, runStage, process, runWindows, runBatchList, runItems,
      createBatches, validateBulkConfig, roundPct, successRateVal, ceilDiv])
  simpa using h

/-- **C10.** Whenever `processWithRetry` returns an outcome rather than throwing,
the outcome's `duration` field is the literal `0` — for every clock oracle, i.e.
regardless of actual elapsed time — and its `batchNumber` field is
`ceil(items.length / batchSize)` (the total batch count, not an individual batch
index). -/
theorem processWithRetry_duration_batchNumber (b conc : Nat) (op : Op σ α)
    (retries d : Nat) (clock : Nat → Nat) (s : σ) (items : List α) (s' : σ)
    (r : BatchResult α) (ds : List Nat)
    (h : processWithRetry b conc op retries d clock s items =
      (s', Except.ok r, ds)) :
    r.duration = 0 ∧ r.batchNumber = ceilDiv items.length b := by
  unfold processWithRetry at h
  dsimp only at h
  split at h
  · simp only [Prod.mk.injEq] at h
    exact absurd h.2.1 (by simp)
  · simp only [Prod.mk.injEq, Except.ok.injEq] at h
    obtain ⟨-, hbr, -⟩ := h
    rw [← hbr]
    exact ⟨rfl, rfl⟩

/-- Witness for C10 at a concrete run: 3 items in batches of 2, everything
succeeds, the clock oracle reports 3ms per pass, yet `duration = 0` and
`batchNumber = ceil(3/2) = 2`. -/
theorem processWithRetry_duration_batchNumber_witness :
    ({ successful := [0, 1, 2], failed := [], batchNumber := 2,
       duration := 0 } : BatchResult Nat).duration = 0 ∧
    ({ successful := [0, 1, 2], failed := [], batchNumber := 2,
       duration := 0 } : BatchResult Nat).batchNumber = ceilDiv 3 2 :=
  processWithRetry_duration_batchNumber 2 1 (fun (s : Unit) (_ : Nat) => (s, Except.ok ()))
    1 7 (fun _ => 3) () [0, 1, 2] () _ []
    (by simp [processWithRetry, retryGo, process, runWindows, runBatchList, runItems,
      createBatches, ceilDiv])


/-- **C3.** With a valid configuration: a `continueOnError = true` caller always
receives a Result (never a thrown error from item failures, even when every item
failed); a `continueOnError = false` caller receives a Result only when `failed = 0`,
and the call throws whenever the dispatch stage's outcome has any failures left. -/
theorem processBatchSvc_continueOnError (opId : String) (cfg : BulkOperationConfig)
    (op : Op σ α) (clock : Nat → Nat) (elapsedTotal : Nat) (s : σ) (items : List α)
    (hv : (validateBulkConfig cfg).isValid = true) :
    (cfg.continueOnError = true →
      ∃ (s' : σ) (p : BulkProgress) (r : BulkResult α),
        processBatchSvc opId cfg op clock elapsedTotal s items =
          (s', Except.ok (p, r))) ∧
    (cfg.continueOnError = false →
      (∀ (s' : σ) (p : BulkProgress) (r : BulkResult α),
        processBatchSvc opId cfg op clock elapsedTotal s items =
          (s', Except.ok (p, r)) → r.failed = 0) ∧
      (∀ (s1 : σ) (br : BatchResult α) (ds : List Nat),
        runStage cfg op clock s items = (s1, Except.ok br, ds) →
        0 < br.failed.length →
        (processBatchSvc opId cfg op clock elapsedTotal s items).2 =
          Except.error ("Bulk operation failed: " ++ toString br.failed.length ++
            " items failed"))) := by
  constructor
  · intro hCE
    unfold processBatchSvc
    dsimp only
    rw [hv]
    simp only [Bool.not_true]
    rw [if_neg (by simp)]
    rcases hrs : runStage cfg op clock s items with ⟨s1, res, ds⟩
    cases res with
    | ok br =>
      dsimp only
      by_cases hcond : (!cfg.continueOnError && decide (br.failed.length > 0)) = true
      · rw [hCE] at hcond
        simp at hcond
      · rw [if_neg hcond]
        exact ⟨_, _, _, rfl⟩
    | error e =>
      dsimp only
      rw [if_pos hCE]
      exact ⟨_, _, _, rfl⟩
  · intro hCE
    constructor
    · intro s' p r h
      unfold processBatchSvc at h
      dsimp only at h
      rw [hv] at h
      simp only [Bool.not_true] at h
      rw [if_neg (by simp)] at h
      rcases hrs : runStage cfg op clock s items with ⟨s1, res, ds⟩
      rw [hrs] at h
      cases res with
      | ok br =>
        dsimp only at h
        split at h
        · simp at h
        · rename_i hcond
          obtain ⟨h1, h2⟩ := Prod.mk.inj h
          obtain ⟨h4, h5⟩ := Prod.mk.inj (Except.ok.inj h2)
          subst h5
          show br.failed.length = 0
          rw [hCE] at hcond
          simpa using hcond
      | error e =>
        dsimp only at h
        split at h
        · rename_i hcond
          rw [hCE] at hcond
          simp at hcond
        · simp at h
    · intro s1 br ds hrs hfail
      unfold processBatchSvc
      dsimp only
      rw [hv]
      simp only [Bool.not_true]
      rw [if_neg (by simp)]
      rw [hrs]
      dsimp only
      rw [if_pos (by simp [hCE]; omega)]

/-- Witness for C3 at a concrete total-failure run with `continueOnError = true`:
the caller still receives a Result. -/
theorem processBatchSvc_continueOnError_witness :
    ∃ (s' : Unit) (p : BulkProgress) (r : BulkResult Nat),
      processBatchSvc "w" ⟨2, 1, 1, 5, true, false⟩
        (fun (s : Unit) (_ : Nat) => (s, Except.error "boom")) (fun _ => 0) 0 () [0] =
        (s', Except.ok (p, r)) :=
  (processBatchSvc_continueOnError "w" ⟨2, 1, 1, 5, true, false⟩
    (fun (s : Unit) (_ : Nat) => (s, Except.error "boom")) (fun _ => 0) 0 () [0]
    (by decide)).1 rfl

/-- **C2 counterexample.** With an operation whose captured failure text is the
*empty string*, the total-failure throw does not surface the final captured text:
the JS `||` fallback replaces the empty text, so the thrown message is the literal
"All items failed" while the final round's last-recorded failure text is `""`. -/
theorem processWithRetry_emptyText_counterexample :
    (processWithRetry 1 1 (fun (s : Unit) (_ : Nat) => (s, Except.error "")) 1 0
        (fun _ => 0) () [0]).2.1 = Except.error "All items failed" ∧
    ((retryGo 1 1 (fun (s : Unit) (_ : Nat) => (s, Except.error "")) 0 (fun _ => 0)
        1 0 () [0] [] []).2.2.1).map Prod.snd = [""] ∧
    "All items failed" ≠ "" := by
  refine ⟨?_, ?_, by decide⟩
  · simp [processWithRetry, retryGo, process, runWindows, runBatchList, runItems,
      createBatches, lastErrText]
  · simp [retryGo, process, runWindows, runBatchList, runItems, createBatches]

/-- **C2 (amended).** For every non-empty items list and operation failing on every
invocation, with positive batch size and concurrency, the retry executor throws
after all rounds: nothing was accumulated as successful, the final round's failure
list covers the whole input in order, and the thrown message is `lastErrText` of
that list — the error text of its last entry when that text is non-empty, the
fallback "All items failed" when the captured text is the empty string. -/
theorem processWithRetry_totalFailure_throws {b conc : Nat} (hb : 0 < b)
    (hc : 0 < conc) (op : Op σ α) (retries d : Nat) (clock : Nat → Nat) (s : σ)
    (items : List α) (_hR : 0 < retries) (hop : alwaysFails op) (hne : items ≠ []) :
    ∃ (s' : σ) (allF : List (α × String)) (ds : List Nat),
      retryGo b conc op d clock retries 0 s items [] [] = (s', [], allF, ds) ∧
      allF.map Prod.fst = items ∧
      processWithRetry b conc op retries d clock s items =
        (s', Except.error (lastErrText allF), ds) := by
  obtain ⟨hS, hF⟩ := retryGo_alwaysFails hb hc hop d clock retries 0 s items [] []
  rcases hret : retryGo b conc op d clock retries 0 s items [] [] with ⟨s', allS, allF, ds⟩
  rw [hret] at hS hF
  have hS' : allS = [] := hS
  have hF' : allF.map Prod.fst = items := hF
  refine ⟨s', allF, ds, by rw [hS'], hF', ?_⟩
  unfold processWithRetry
  dsimp only
  rw [hret, hS']
  have hlen : allF.length = items.length := by rw [← hF', List.length_map]
  rw [if_pos ?cond]
  case cond =>
    cases items with
    | nil => exact absurd rfl hne
    | cons x xs => simp [hlen]

/-- Witness for C2 at a concrete always-failing run (non-empty failure text). -/
theorem processWithRetry_totalFailure_throws_witness :
    ∃ (s' : Unit) (allF : List (Nat × String)) (ds : List Nat),
      retryGo 1 1 (fun (s : Unit) (_ : Nat) => (s, Except.error "boom")) 0 (fun _ => 0)
          1 0 () [5] [] [] = (s', [], allF, ds) ∧
      allF.map Prod.fst = [5] ∧
      processWithRetry 1 1 (fun (s : Unit) (_ : Nat) => (s, Except.error "boom")) 1 0
          (fun _ => 0) () [5] = (s', Except.error (lastErrText allF), ds) :=
  processWithRetry_totalFailure_throws (by decide) (by decide)
    (fun (s : Unit) (_ : Nat) => (s, Except.error "boom")) 1 0 (fun _ => 0) () [5]
    (by decide) (fun _ _ _ h => Except.noConfusion h) (by simp)

/-- **C4.** For all `n ≥ 0` and `batchSize b > 0`, the batch splitter yields exactly
`⌈n/b⌉` batches which concatenate, in order, to the original list (contiguous,
non-overlapping, order-preserving, covering each item exactly once), every batch
but possibly the last of size exactly `b`, every batch non-empty and of size at
most `b`.  It is a pure Lean function, hence deterministic. -/
theorem createBatches_spec (b : Nat) (items : List α) (hb : 0 < b) :
    (createBatches b items).length = ceilDiv items.length b ∧
    (createBatches b items).flatten = items ∧
    (∀ l ∈ (createBatches b items).dropLast, l.length = b) ∧
    ∀ l ∈ createBatches b items, l ≠ [] ∧ l.length ≤ b :=
  ⟨createBatches_length hb items, createBatches_join hb items,
    createBatches_dropLast_sizes hb items, createBatches_sizes hb items⟩

/-- Witness for C4 at `n = 5`, `b = 2`. -/
theorem createBatches_spec_witness :
    (createBatches 2 [1, 2, 3, 4, 5]).length = ceilDiv 5 2 ∧
    (createBatches 2 [1, 2, 3, 4, 5]).flatten = [1, 2, 3, 4, 5] :=
  ⟨(createBatches_spec 2 [1, 2, 3, 4, 5] (by decide)).1,
    (createBatches_spec 2 [1, 2, 3, 4, 5] (by decide)).2.1⟩

/-- **C6.** For every run of the retry executor (any parameters, any operation, any
clock), the requested back-off delays form, in order, the exact schedule
`d·2^0, d·2^1, d·2^2, …`: the delay requested before retry round `k` (for every
`k ≥ 1` actually entered) is `retryDelayMs · 2^(k-1)`, with no jitter added at
this layer. -/
theorem processWithRetry_backoff (b conc : Nat) (op : Op σ α) (retries d : Nat)
    (clock : Nat → Nat) (s : σ) (items : List α) :
    ∃ m, (processWithRetry b conc op retries d clock s items).2.2 =
      (List.range m).map (fun k => d * 2 ^ k) := by
  obtain ⟨m, -, heq⟩ := retryGo_delays b conc op d clock retries 0 s items []
  rw [show (List.range 0).map (fun k => d * 2 ^ k) = ([] : List Nat) from by simp] at heq
  refine ⟨m, ?_⟩
  unfold processWithRetry
  dsimp only
  split
  · exact heq
  · exact heq

/-!
### Rounds of the counting operation
-/

/-- A pass over distinct items whose per-item invocation counts all equal `c` with
`c` still below every failure threshold: every item fails with its message, every
count is bumped by one. -/
theorem runItems_countingOp_below [DecidableEq α] {failures : α → Nat}
    {msg : α → String} (l : List α) :
    ∀ (s : α → Nat) (c : Nat), l.Nodup → (∀ x ∈ l, s x = c) →
      (∀ x ∈ l, c < failures x) →
      runItems (countingOp failures msg) s l [] [] =
        ((fun y => if y ∈ l then s y + 1 else s y), [],
          l.map (fun x => (x, msg x))) := by
  induction l with
  | nil =>
    intro s c hnd hs hf
    simp only [runItems, List.map_nil]
    have hfun : (fun y => if y ∈ ([] : List α) then s y + 1 else s y) = s := by
      funext y
      simp
    rw [hfun]
  | cons x xs ih =>
    intro s c hnd hs hf
    have hsx : s x = c := hs x (List.mem_cons_self x xs)
    have hfx : c < failures x := hf x (List.mem_cons_self x xs)
    have hx : countingOp failures msg s x =
        ((fun y => if y = x then s y + 1 else s y), Except.error (msg x)) := by
      simp [countingOp, hsx, hfx]
    rw [runItems_cons_error hx,
      runItems_acc (countingOp failures msg) xs _ [] ([] ++ [(x, msg x)])]
    have hxs : x ∉ xs := (List.nodup_cons.mp hnd).1
    have htail : ∀ y ∈ xs, (fun y => if y = x then s y + 1 else s y) y = c := by
      intro y hy
      have hyx : y ≠ x := fun hcon => hxs (hcon ▸ hy)
      simp [hyx, hs y (List.mem_cons_of_mem x hy)]
    rw [ih _ c (List.nodup_cons.mp hnd).2 htail
      (fun y hy => hf y (List.mem_cons_of_mem x hy))]
    dsimp only
    simp only [Prod.mk.injEq]
    refine ⟨?_, by simp, by simp⟩
    funext y
    by_cases hyx : y = x
    · subst hyx
      simp [hxs]
    · by_cases hmem : y ∈ xs <;> simp [hyx, hmem]

/-- A pass over distinct items whose counts all equal `c` with every failure
threshold already reached: every item succeeds, every count is bumped by one. -/
theorem runItems_countingOp_atLeast [DecidableEq α] {failures : α → Nat}
    {msg : α → String} (l : List α) :
    ∀ (s : α → Nat) (c : Nat), l.Nodup → (∀ x ∈ l, s x = c) →
      (∀ x ∈ l, failures x ≤ c) →
      runItems (countingOp failures msg) s l [] [] =
        ((fun y => if y ∈ l then s y + 1 else s y), l, []) := by
  induction l with
  | nil =>
    intro s c hnd hs hf
    simp only [runItems]
    have hfun : (fun y => if y ∈ ([] : List α) then s y + 1 else s y) = s := by
      funext y
      simp
    rw [hfun]
  | cons x xs ih =>
    intro s c hnd hs hf
    have hsx : s x = c := hs x (List.mem_cons_self x xs)
    have hfx : failures x ≤ c := hf x (List.mem_cons_self x xs)
    have hx : countingOp failures msg s x =
        ((fun y => if y = x then s y + 1 else s y), Except.ok ()) := by
      simp [countingOp, hsx, Nat.not_lt.mpr hfx]
    rw [runItems_cons_ok hx,
      runItems_acc (countingOp failures msg) xs _ ([] ++ [x]) []]
    have hxs : x ∉ xs := (List.nodup_cons.mp hnd).1
    have htail : ∀ y ∈ xs, (fun y => if y = x then s y + 1 else s y) y = c := by
      intro y hy
      have hyx : y ≠ x := fun hcon => hxs (hcon ▸ hy)
      simp [hyx, hs y (List.mem_cons_of_mem x hy)]
    rw [ih _ c (List.nodup_cons.mp hnd).2 htail
      (fun y hy => hf y (List.mem_cons_of_mem x hy))]
    dsimp only
    simp only [Prod.mk.injEq]
    refine ⟨?_, by simp, by simp⟩
    funext y
    by_cases hyx : y = x
    · subst hyx
      simp [hxs]
    · by_cases hmem : y ∈ xs <;> simp [hyx, hmem]

/-- Retry rounds of the counting operation with a uniform failure threshold `F`,
starting from uniform count `c` with exactly `c + fuel = F`: every round until the
last fails wholesale (recording one back-off delay each), the last round succeeds
wholesale, and each item ends up invoked `F + 1` times. -/
theorem retryGo_countingOp_uniform [DecidableEq α] {b conc : Nat} (hb : 0 < b)
    (hc : 0 < conc) (F : Nat) (msg : α → String) (d : Nat) (clock : Nat → Nat) :
    ∀ (fuel attempt c : Nat) (s : α → Nat) (l : List α) (allS : List α)
      (delays : List Nat), l ≠ [] → l.Nodup → (∀ y ∈ l, s y = c) → c + fuel = F →
      ∃ sF, retryGo b conc (countingOp (fun _ => F) msg) d clock fuel attempt s l
          allS delays =
        (sF, allS ++ l, [],
          delays ++ (List.range fuel).map (fun k => d * 2 ^ (attempt + k))) ∧
        ∀ y ∈ l, sF y = F + 1 := by
  intro fuel
  induction fuel with
  | zero =>
    intro attempt c s l allS delays hne hnd hs hcf
    refine ⟨(fun y => if y ∈ l then s y + 1 else s y), ?_, ?_⟩
    · simp only [retryGo]
      rw [process_eq_runItems hb hc,
        runItems_countingOp_atLeast l s c hnd hs (fun y hy => by omega)]
      simp
    · intro y hy
      have h1 := hs y hy
      simp only [hy, if_pos]
      omega
  | succ fuel ih =>
    intro attempt c s l allS delays hne hnd hs hcf
    obtain ⟨sF, heq, hcnt⟩ := ih (attempt + 1) (c + 1)
      (fun y => if y ∈ l then s y + 1 else s y) l allS
      (delays ++ [d * 2 ^ attempt]) hne hnd
      (fun y hy => by simp [hy, hs y hy]) (by omega)
    refine ⟨sF, ?_, hcnt⟩
    simp only [retryGo]
    rw [process_eq_runItems hb hc,
      runItems_countingOp_below l s c hnd hs (fun y hy => by omega)]
    dsimp only
    rw [if_neg ?fne]
    case fne =>
      cases l with
      | nil => exact absurd rfl hne
      | cons x xs => simp
    rw [show (l.map (fun x => (x, msg x))).map Prod.fst = l by
        simp [Function.comp_def],
      List.append_nil, heq]
    have hsched : (delays ++ [d * 2 ^ attempt]) ++
        (List.range fuel).map (fun k => d * 2 ^ (attempt + 1 + k)) =
        delays ++ (List.range (fuel + 1)).map (fun k => d * 2 ^ (attempt + k)) := by
      rw [List.append_assoc]
      refine congrArg (fun t => delays ++ t) ?_
      rw [List.range_succ_eq_map, List.map_cons, List.map_map]
      have hfun : ((fun k => d * 2 ^ (attempt + k)) ∘ Nat.succ) =
          (fun k => d * 2 ^ (attempt + 1 + k)) := by
        funext k
        show d * 2 ^ (attempt + (k + 1)) = d * 2 ^ (attempt + 1 + k)
        rw [show attempt + (k + 1) = attempt + 1 + k from by omega]
      rw [hfun]
      simp
    rw [hsched]

/-- **C5.** With `retryRounds = 2` and an operation that fails on its first two
invocations of each (distinct) item and succeeds on the third: the run returns
all items successful (in order), no failures, and each item's operation was
invoked exactly 3 times (1 initial pass + 2 retry rounds) — the failing set is
retried together round by round, not in per-item independent loops. -/
theorem processWithRetry_failTwiceThenSucceed [DecidableEq α] {b conc : Nat}
    (hb : 0 < b) (hc : 0 < conc) (msg : α → String) (d : Nat) (clock : Nat → Nat)
    (items : List α) (hnd : items.Nodup) :
    ∃ (sF : α → Nat) (ds : List Nat),
      processWithRetry b conc (countingOp (fun _ => 2) msg) 2 d clock
          (fun _ => 0) items =
        (sF, Except.ok { successful := items, failed := [],
                         batchNumber := ceilDiv items.length b, duration := 0 }, ds) ∧
      ∀ x ∈ items, sF x = 3 := by
  cases items with
  | nil =>
    refine ⟨(fun _ => 0), [], ?_, by simp⟩
    simp [processWithRetry, retryGo, process, runWindows, runItems, createBatches_nil]
  | cons x xs =>
    obtain ⟨sF, heq, hcnt⟩ := retryGo_countingOp_uniform hb hc 2 msg d clock 2 0 0
      (fun _ => 0) (x :: xs) [] [] (by simp) hnd (fun y _ => rfl) (by omega)
    refine ⟨sF, (List.range 2).map (fun k => d * 2 ^ (0 + k)), ?_, hcnt⟩
    unfold processWithRetry
    dsimp only
    rw [heq]
    rw [if_neg (by simp)]
    simp

/-- Witness for C5: three items in batches of two, messages "boom", delay 5. -/
theorem processWithRetry_failTwiceThenSucceed_witness :
    ∃ (sF : Nat → Nat) (ds : List Nat),
      processWithRetry 2 1 (countingOp (fun _ => 2) (fun _ => "boom")) 2 5
          (fun _ => 0) (fun _ => 0) [10, 20, 30] =
        (sF, Except.ok { successful := [10, 20, 30], failed := [],
                         batchNumber := ceilDiv 3 2, duration := 0 }, ds) ∧
      ∀ x ∈ [10, 20, 30], sF x = 3 :=
  processWithRetry_failTwiceThenSucceed (by decide) (by decide) (fun _ => "boom") 5
    (fun _ => 0) [10, 20, 30] (by decide)

/-- **C7.** With passing filter and update validations, an empty fetched resource
list makes `bulkUpdate` return the canonical no-op Result
`{operationId := "no-op", total = successful = failed = 0, errors = [],
duration = 0}` with the operation state untouched: the per-item operation is never
invoked and the batch scheduler is never entered. -/
theorem bulkUpdate_empty_noop (filterV updatesV : ValidationResult)
    (updates : List (String × String)) (cfg : BulkOperationConfig) (opId : String)
    (op : Op σ Resource) (clock : Nat → Nat) (elapsedTotal : Nat) (s : σ)
    (hf : filterV.isValid = true) (hu : updatesV.isValid = true) :
    bulkUpdate filterV updatesV [] updates cfg opId op clock elapsedTotal s =
      (s, Except.ok noopResult) := by
  unfold bulkUpdate
  rw [hf, hu]
  simp

/-- Witness for C7 with concrete passing validations and a non-trivial update. -/
theorem bulkUpdate_empty_noop_witness :
    bulkUpdate ⟨true, [], []⟩ ⟨true, [], []⟩ [] [("name", "x")]
        ⟨50, 3, 3, 1000, true, false⟩ "id1"
        (fun (s : Unit) (_ : Resource) => (s, Except.ok ())) (fun _ => 0) 0 () =
      ((), Except.ok noopResult) :=
  bulkUpdate_empty_noop ⟨true, [], []⟩ ⟨true, [], []⟩ [("name", "x")]
    ⟨50, 3, 3, 1000, true, false⟩ "id1"
    (fun (s : Unit) (_ : Resource) => (s, Except.ok ())) (fun _ => 0) 0 () rfl rfl

/-- **C8.** With passing validations, `dryRun = true` and a non-empty resource
list, `bulkUpdate` returns `{operationId := "dry-run", total = affectedCount,
successful = total, failed = 0, duration = 0, rollbackData = the preview entries}`
where `affectedCount = resources.length`, and the mutating per-item operation is
never invoked (the operation state is returned untouched). -/
theorem bulkUpdate_dryRun (filterV updatesV : ValidationResult)
    (resources : List Resource) (updates : List (String × String))
    (cfg : BulkOperationConfig) (opId : String) (op : Op σ Resource)
    (clock : Nat → Nat) (elapsedTotal : Nat) (s : σ)
    (hf : filterV.isValid = true) (hu : updatesV.isValid = true)
    (hne : resources ≠ []) (hdry : cfg.dryRun = true) :
    bulkUpdate filterV updatesV resources updates cfg opId op clock elapsedTotal s =
      (s, Except.ok
        { operationId := "dry-run",
          total := (performDryRun resources updates).affectedCount,
          successful := (performDryRun resources updates).affectedCount,
          failed := 0, errors := [], duration := 0,
          rollbackData := some (performDryRun resources updates).preview }) ∧
    (performDryRun resources updates).affectedCount = resources.length := by
  refine ⟨?_, rfl⟩
  unfold bulkUpdate
  rw [hf, hu]
  simp only [Bool.not_true]
  rw [if_neg (by simp), if_neg (by simp), if_neg ?hlen, if_pos hdry]
  case hlen => simpa [List.length_eq_zero] using hne

/-- Witness for C8: one resource whose `status` already equals the proposed value;
the run reports `operationId = "dry-run"` and one preview entry. -/
theorem bulkUpdate_dryRun_witness :
    bulkUpdate ⟨true, [], []⟩ ⟨true, [], []⟩ [[("id", "r1"), ("status", "up")]]
        [("status", "up")] ⟨50, 3, 3, 1000, true, true⟩ "id2"
        (fun (s : Unit) (_ : Resource) => (s, Except.ok ())) (fun _ => 0) 0 () =
      ((), Except.ok
        { operationId := "dry-run",
          total := (performDryRun [[("id", "r1"), ("status", "up")]]
            [("status", "up")]).affectedCount,
          successful := (performDryRun [[("id", "r1"), ("status", "up")]]
            [("status", "up")]).affectedCount,
          failed := 0, errors := [], duration := 0,
          rollbackData := some (performDryRun [[("id", "r1"), ("status", "up")]]
            [("status", "up")]).preview }) ∧
    (performDryRun [[("id", "r1"), ("status", "up")]]
      [("status", "up")]).affectedCount = [[("id", "r1"), ("status", "up")]].length :=
  bulkUpdate_dryRun ⟨true, [], []⟩ ⟨true, [], []⟩ [[("id", "r1"), ("status", "up")]]
    [("status", "up")] ⟨50, 3, 3, 1000, true, true⟩ "id2"
    (fun (s : Unit) (_ : Resource) => (s, Except.ok ())) (fun _ => 0) 0 ()
    rfl rfl (by simp) rfl

/-- **C9 counterexample.** Two completed runs where the final Progress violates
`successRate == percentage` (and the first also violates
`percentage = round(completed/total·100)`): (1) the `continueOnError = true`
catch path sets `percentage := 100` and `successRate := 0` even though
`completed = 0` of `total = 1` (so `round(0/1·100) = 0 ≠ 100`); (2) with
`total = 0` the code computes `percentage = Math.round(0/0·100) = NaN` (`none`)
while the guarded `successRate` is `0`. -/
theorem processBatchSvc_successRate_counterexample :
    (processBatchSvc "x" ⟨50, 3, 1, 0, true, false⟩
        (fun (s : Unit) (_ : Nat) => (s, Except.error "boom")) (fun _ => 0) 9
        () [0]).2 =
      Except.ok
        ({ total := 1, completed := 0, failed := 1, percentage := some 100,
           currentBatch := 0, totalBatches := 1, successRate := some 0 },
         { operationId := "x", total := 1, successful := 0, failed := 1,
           errors := [(0, "boom")], duration := 9, rollbackData := none }) ∧
    (some 100 : Option Nat) ≠ some 0 ∧ roundPct 0 1 = some 0 ∧
    (processBatchSvc "y" ⟨50, 3, 3, 1000, true, false⟩
        (fun (s : Unit) (_ : Nat) => (s, Except.error "e")) (fun _ => 0) 0 ()
        ([] : List Nat)).2 =
      Except.ok
        ({ total := 0, completed := 0, failed := 0, percentage := none,
           currentBatch := 0, totalBatches := 0, successRate := some 0 },
         { operationId := "y", total := 0, successful := 0, failed := 0,
           errors := [], duration := 0, rollbackData := none }) ∧
    (none : Option Nat) ≠ some 0 := by
  refine ⟨?_, by decide, by decide, ?_, by decide⟩
  · simp [processBatchSvc, runStage, processWithRetry, retryGo, process, runWindows,
      runBatchList, runItems, createBatches, validateBulkConfig, roundPct,
      successRateVal, ceilDiv, lastErrText]
  · simp [processBatchSvc, runStage, processWithRetry, retryGo, process, runWindows,
      runBatchList, runItems, createBatches, validateBulkConfig, roundPct,
      successRateVal, ceilDiv, lastErrText]

/-- **C9 (amended).** On every completed run in which the dispatch stage returned
an outcome (no catch) and with a valid configuration, the final Progress reports
`percentage = roundPct completed total` (which is `NaN` when `total = 0`) and
`successRate = successRateVal completed total`; consequently
`successRate = percentage` whenever `total > 0`.  The equality fails exactly when
`total = 0` (NaN vs 0) and on the `continueOnError = true` catch path (100 vs 0). -/
theorem processBatchSvc_finalProgress (opId : String) (cfg : BulkOperationConfig)
    (op : Op σ α) (clock : Nat → Nat) (elapsedTotal : Nat) (s : σ) (items : List α)
    (s1 s' : σ) (br : BatchResult α) (ds : List Nat) (p : BulkProgress)
    (r : BulkResult α)
    (hv : (validateBulkConfig cfg).isValid = true)
    (hstage : runStage cfg op clock s items = (s1, Except.ok br, ds))
    (h : processBatchSvc opId cfg op clock elapsedTotal s items =
      (s', Except.ok (p, r))) :
    p.total = items.length ∧ p.completed = br.successful.length ∧
    p.percentage = roundPct br.successful.length items.length ∧
    p.successRate = successRateVal br.successful.length items.length ∧
    (0 < items.length → p.successRate = p.percentage) := by
  unfold processBatchSvc at h
  dsimp only at h
  rw [hv] at h
  simp only [Bool.not_true] at h
  rw [if_neg (by simp)] at h
  rw [hstage] at h
  dsimp only at h
  split at h
  · simp at h
  · obtain ⟨h1, h2⟩ := Prod.mk.inj h
    obtain ⟨h4, h5⟩ := Prod.mk.inj (Except.ok.inj h2)
    subst h4
    refine ⟨rfl, rfl, rfl, rfl, ?_⟩
    intro hpos
    show successRateVal br.successful.length items.length =
      roundPct br.successful.length items.length
    unfold successRateVal
    rw [if_pos hpos]

/-- Witness for C9 at the concrete partial-failure run of the C1 witness:
the final progress has `successRate = percentage = some 60`. -/
theorem processBatchSvc_finalProgress_witness :
    ({ total := 5, completed := 3, failed := 2, percentage := some 60,
       currentBatch := 0, totalBatches := 3,
       successRate := some 60 } : BulkProgress).successRate =
      ({ total := 5, completed := 3, failed := 2, percentage := some 60,
         currentBatch := 0, totalBatches := 3,
         successRate := some 60 } : BulkProgress).percentage :=
  (processBatchSvc_finalProgress "w" ⟨2, 1, 0, 0, true, false⟩
    (fun (s : Unit) (n : Nat) =>
      (s, if n % 2 == 1 then Except.ok () else Except.error "even"))
    (fun _ => 0) 4 () [1, 2, 3, 4, 5] () ()
    { successful := [1, 3, 5], failed := [(2, "even"), (4, "even")],
      batchNumber := 3, duration := 0 } []
    { total := 5, completed := 3, failed := 2, percentage := some 60,
      currentBatch := 0, totalBatches := 3, successRate := some 60 }
    { operationId := "w", total := 5, successful := 3, failed := 2,
      errors := [(2, "even"), (4, "even")], duration := 4, rollbackData := none }
    (by decide)
    (by simp [runStage, process, runWindows, runBatchList, runItems, createBatches])
    (by simp [processBatchSvc, runStage, process, runWindows, runBatchList, runItems,
      createBatches, validateBulkConfig, roundPct, successRateVal,
      ceilDiv])).2.2.2.2 (by decide)

end Bulk
